import Mathlib

/-!
Verification of the dash_map repository: three dashboard scripts sharing a
computational core made of a classification-scheme remapper, a zonal area
aggregator and a temporal trend analyzer.  The definitions below are shallow
embeddings of the code in `src/novo.py`, `src/mapbiomas_globe.py` and
`src/rio.py`; machine floats are modelled by exact rationals, and a Python
float division whose denominator is zero (which yields a non-finite value,
not an exception) is modelled by `Option.none`.
-/

namespace DashMap

/-! ## Remapping (Earth Engine `Image.remap` semantics)

Both `novo.py` (line 106) and `mapbiomas_globe.py` (lines 150-153 and
180-182) call `band.remap(codes, new_classes)` with no default value: a
pixel whose value equals `codes[i]` for the first matching `i` becomes
`new_classes[i]`; a pixel matching no code is masked out (excluded), which
we model as `none`. -/

/-- First-match lookup of `remap`: value `v` is sent to the element of `ns`
parallel to its first occurrence in `cs`, and to `none` when it occurs in
neither list (the Earth Engine masks such pixels). -/
def remapLookup (cs ns : List Int) (v : Int) : Option Int :=
  match cs, ns with
  | [], _ => none
  | _ :: _, [] => none
  | c :: cs1, n :: ns1 => if v = c then some n else remapLookup cs1 ns1 v

/-- Pixelwise remap of one classification band, kept as a rectangular grid.
Embeds the per-band body of `reclassify_bands` in `novo.py` (lines 101-108):
an already masked pixel stays masked, an unmasked pixel goes through
`remapLookup`. -/
def remapBand (g : List (List (Option Int))) (cs ns : List Int) :
    List (List (Option Int)) :=
  g.map (fun row => row.map (fun p => p.bind (remapLookup cs ns)))

/-! ## Zonal area aggregation

For the area claims the grid layout is irrelevant (the Earth Engine
`reduceRegion` sums over all pixels of the geometry), so a band is a flat
list of pixels `(value, inRegion, pixelAreaM2)`: the raw or remapped code,
the region-mask bit derived from the geometry, and the ground area of the
pixel in square meters (`ee.Image.pixelArea`). -/

/-- Remap applied to a pixel list of raw codes; mask bit and pixel area are
untouched. -/
def remapPixels (px : List (Int × Bool × ℚ)) (cs ns : List Int) :
    List (Option Int × Bool × ℚ) :=
  px.map (fun p => (remapLookup cs ns p.1, p.2))

/-- Area in square meters of the pixels of class `i` inside the region:
embeds `remapped.eq(class_id).multiply(ee.Image.pixelArea()).reduceRegion(sum)`
of `mapbiomas_globe.py` (lines 188-194) and the `class_masks` /
`reduceRegion` pipeline of `novo.py` (lines 222-233).  A masked pixel
(`none`) never equals a class and contributes nothing. -/
def areaOfClass (px : List (Option Int × Bool × ℚ)) (i : Int) : ℚ :=
  (px.map (fun p => if p.2.1 = true ∧ p.1 = some i then p.2.2 else 0)).sum

/-- Total ground area (square meters) of the pixels inside the region. -/
def maskedArea {α : Type} (px : List (α × Bool × ℚ)) : ℚ :=
  (px.map (fun p => if p.2.1 = true then p.2.2 else 0)).sum

/-- Sum over the seven class indices 0..6 of the per-class areas in km², as
`novo.py` produces them (`for i in range(0, 7)` at line 223, `area_m2 / 1e6`
at line 243). -/
def sumAreaKm2 (px : List (Option Int × Bool × ℚ)) : ℚ :=
  ((List.range 7).map (fun i => areaOfClass px (Int.ofNat i) / 1000000)).sum

/-! ## The two configured schemes -/

/-- Keys of `CLASS_MAPPING` in `mapbiomas_globe.py` lines 84-91, in Python
dict insertion order. -/
def CLASS_MAPPING_codes : List Int :=
  [1, 3, 4, 5, 6, 49, 10, 11, 12, 32, 29, 50, 14, 15, 18, 19, 39, 20, 40,
   62, 41, 36, 46, 47, 35, 48, 9, 21, 22, 23, 24, 30, 25, 26, 33, 31, 27]

/-- Values of `CLASS_MAPPING` in `mapbiomas_globe.py` lines 84-91, parallel
to `CLASS_MAPPING_codes`. -/
def CLASS_MAPPING_values : List Int :=
  [1, 1, 1, 1, 1, 1, 2, 2, 2, 2, 2, 2, 3, 3, 3, 3, 3, 3, 3,
   3, 3, 3, 3, 3, 3, 3, 3, 3, 4, 4, 4, 4, 4, 5, 5, 5, 6]

/-- The `codes` list of `CLASS_CONFIG` in `novo.py` line 51. -/
def CLASS_CONFIG_codes : List Int :=
  [0, 1, 3, 4, 5, 6, 49, 10, 11, 12, 32, 29, 50, 14, 15, 18, 19, 39, 20,
   40, 62, 41, 36, 46, 47, 35, 48, 9, 21, 22, 23, 24, 30, 25, 26, 33, 31, 27]

/-- The `new_classes` list of `CLASS_CONFIG` in `novo.py` line 52. -/
def CLASS_CONFIG_new_classes : List Int :=
  [0, 1, 1, 1, 1, 1, 1, 2, 2, 2, 2, 2, 2, 3, 3, 3, 3, 3, 3,
   3, 3, 3, 3, 3, 3, 3, 3, 3, 4, 4, 4, 4, 4, 4, 5, 5, 5, 6]

/-- Per-class area in km² computed by `process_data` in
`mapbiomas_globe.py` (lines 177-195): remap the raw band with
`CLASS_MAPPING`, sum the pixel areas of the pixels equal to the class inside
the region, divide by 1e6. -/
def computeAreaByClass (px : List (Int × Bool × ℚ)) (i : Int) : ℚ :=
  areaOfClass (remapPixels px CLASS_MAPPING_codes CLASS_MAPPING_values) i / 1000000

/-- The end-to-end scenario band: a 10x10 band (100 pixels) holding raw code
1 everywhere, every pixel of ground area 900 m² (30 m resolution), with the
region covering the whole band. -/
def band10 : List (Int × Bool × ℚ) :=
  List.replicate 100 ((1 : Int), (true, (900 : ℚ)))

/-! ## Temporal trend analyzer (`rio.py`)

The trend section (lines 156-171) works over `x = Ano - 1985` and computes
the ordinary least squares slope and intercept in closed form; the
statistics section (lines 250-266) runs `scipy.stats.linregress` over the
raw years and reports descriptive statistics.  A point is `(year, value)`. -/

/-- Sum of the raw years (`x` of `stats.linregress` at line 252). -/
def sumFst (pts : List (ℚ × ℚ)) : ℚ := (pts.map (fun p => p.1)).sum

/-- Sum of the values `y`. -/
def sumSnd (pts : List (ℚ × ℚ)) : ℚ := (pts.map (fun p => p.2)).sum

/-- Sum of `year * value` over the series. -/
def sumFstSnd (pts : List (ℚ × ℚ)) : ℚ := (pts.map (fun p => p.1 * p.2)).sum

/-- Sum of the squared raw years. -/
def sumFstSq (pts : List (ℚ × ℚ)) : ℚ := (pts.map (fun p => p.1 ^ 2)).sum

/-- Sum of the squared values. -/
def sumSndSq (pts : List (ℚ × ℚ)) : ℚ := (pts.map (fun p => p.2 ^ 2)).sum

/-- `sum_x` of `rio.py` line 162 with `x = Ano - 1985` (line 158). -/
def sumX (pts : List (ℚ × ℚ)) : ℚ := (pts.map (fun p => p.1 - 1985)).sum

/-- `sum_xy` of `rio.py` line 164. -/
def sumXY (pts : List (ℚ × ℚ)) : ℚ :=
  (pts.map (fun p => (p.1 - 1985) * p.2)).sum

/-- `sum_x2` of `rio.py` line 165: the sum of the squared normalized years. -/
def sumX2 (pts : List (ℚ × ℚ)) : ℚ := (pts.map (fun p => (p.1 - 1985) ^ 2)).sum

/-- Numerator `n * sum_xy - sum_x * sum_y` of the slope at `rio.py`
line 167. -/
def fitTrendNum (pts : List (ℚ × ℚ)) : ℚ :=
  (pts.length : ℚ) * sumXY pts - sumX pts * sumSnd pts

/-- Denominator `n * sum_x2 - sum_x ** 2` of the slope at `rio.py`
line 167.  The code divides by it with no guard. -/
def fitTrendDen (pts : List (ℚ × ℚ)) : ℚ :=
  (pts.length : ℚ) * sumX2 pts - sumX pts ^ 2

/-- The closed-form slope of `rio.py` line 167. -/
def fitTrendSlope (pts : List (ℚ × ℚ)) : ℚ := fitTrendNum pts / fitTrendDen pts

/-- The intercept of `rio.py` line 168:
`(sum_y - slope * sum_x) / n`. -/
def fitTrendIntercept (pts : List (ℚ × ℚ)) : ℚ :=
  (sumSnd pts - fitTrendSlope pts * sumX pts) / (pts.length : ℚ)

/-- The trend fit of `rio.py` lines 156-171 as a total function: when the
unguarded slope denominator is zero the float division produces a non-finite
value (inf or NaN) instead of a number, modelled as `none`; otherwise the
pair `(slope, intercept)` is returned. -/
def fitTrend (pts : List (ℚ × ℚ)) : Option (ℚ × ℚ) :=
  if fitTrendDen pts = 0 then none
  else some (fitTrendSlope pts, fitTrendIntercept pts)

/-- Slope of `scipy.stats.linregress` over the raw years (`rio.py` line
252), as scipy computes it: the biased sample covariance of `x` and `y`
divided by the biased sample variance of `x`. -/
def linregressSlope (pts : List (ℚ × ℚ)) : ℚ :=
  ((pts.map (fun p =>
      (p.1 - sumFst pts / (pts.length : ℚ)) *
      (p.2 - sumSnd pts / (pts.length : ℚ)))).sum / (pts.length : ℚ)) /
  ((pts.map (fun p =>
      (p.1 - sumFst pts / (pts.length : ℚ)) ^ 2)).sum / (pts.length : ℚ))

/-- Squared correlation coefficient reported at `rio.py` line 260
(`r_value ** 2` of `stats.linregress` over the raw years); squaring the
Pearson `r = num / sqrt(denx * deny)` gives `num ^ 2 / (denx * deny)`,
which is exact over the rationals. -/
def linregressR2 (pts : List (ℚ × ℚ)) : ℚ :=
  ((pts.length : ℚ) * sumFstSnd pts - sumFst pts * sumSnd pts) ^ 2 /
  (((pts.length : ℚ) * sumFstSq pts - sumFst pts ^ 2) *
   ((pts.length : ℚ) * sumSndSq pts - sumSnd pts ^ 2))

/-- The synthetic exactly-linear series: years 1985..1990 with
`value = 2 * (year - 1985) + 1`. -/
def linearSeries : List (ℚ × ℚ) :=
  [(1985, 1), (1986, 3), (1987, 5), (1988, 7), (1989, 9), (1990, 11)]

/-- Minimum of a value series (`y.min()` at `rio.py` line 266); `none` on an
empty series. -/
def listMin : List ℚ → Option ℚ
  | [] => none
  | a :: t =>
    match listMin t with
    | none => some a
    | some m => some (min a m)

/-- Maximum of a value series (`y.max()` at `rio.py` line 266); `none` on an
empty series. -/
def listMax : List ℚ → Option ℚ
  | [] => none
  | a :: t =>
    match listMax t with
    | none => some a
    | some m => some (max a m)

/-- The `Variação total` statistic of `rio.py` line 266:
`(y.max() - y.min()) / y.min() * 100`, computed with no guard; when the
minimum is zero the float division produces a non-finite value, modelled as
`none`. -/
def variacaoTotal (l : List ℚ) : Option ℚ :=
  match listMin l, listMax l with
  | some mn, some mx => if mn = 0 then none else some ((mx - mn) / mn * 100)
  | _, _ => none

/-! ## Batch per-year statistics loop (`novo.py` lines 218-257)

For every selected year the script fetches the seven per-class area sums
from the Earth Engine (`areas.getInfo()`); on success it appends one row per
class to `stats_data`, on failure it shows an error for that year and
`continue`s with the next one.  The fetch outcome is abstracted as an
`Except`: a failure carries its reason. -/

/-- Reasons a year can fail, mirroring the exceptions caught by the
`try/except` at `novo.py` lines 235-257 (a missing band or any Earth Engine
computation failure). -/
inductive DataErr where
  | dataUnavailable
  | computeFailure
  deriving DecidableEq, Repr

/-- One row of `stats_data` (`novo.py` lines 246-251), without the display
name. -/
structure AreaRow where
  ano : Int
  classe : Int
  areaKm2 : ℚ
  deriving DecidableEq, Repr

/-- The seven rows appended for a successful year: for each class index
`0..6`, the fetched area in m² (or 0 past the end of the list, `novo.py`
line 242) divided by 1e6. -/
def rowsFor (y : Int) (areas : List ℚ) : List AreaRow :=
  (List.range 7).map (fun i =>
    { ano := y, classe := Int.ofNat i, areaKm2 := areas.getD i 0 / 1000000 })

/-- The per-year loop of `novo.py` lines 219-257: each requested year is
fetched independently; a failing year is recorded with its reason and the
loop continues with the remaining years.  Returns the collected rows and
the failed years with reasons. -/
def statsLoop (fetch : Int → Except DataErr (List ℚ)) :
    List Int → List AreaRow × List (Int × DataErr)
  | [] => ([], [])
  | y :: ys =>
    let rest := statsLoop fetch ys
    match fetch y with
    | Except.ok areas => (rowsFor y areas ++ rest.1, rest.2)
    | Except.error e => (rest.1, (y, e) :: rest.2)

/-- Decides whether an `Except` is in its success case. -/
def exceptOk {ε α : Type} : Except ε α → Bool
  | Except.ok _ => true
  | Except.error _ => false

/-- The batch-isolation scenario fetch: years 2020 and 2022 succeed with
concrete area lists, the band of year 2021 is unavailable. -/
def fetch2021Missing (y : Int) : Except DataErr (List ℚ) :=
  if y = 2021 then Except.error DataErr.dataUnavailable
  else Except.ok [1000000, 2000000, 0, 0, 0, 0, 0]

/-! ## Classification scheme construction (spec-modelled)

The source holds only unvalidated dict-literal configurations
(`CLASS_CONFIG` in `novo.py`, `CLASS_MAPPING` in `mapbiomas_globe.py`); the
validating constructor of the specified core does not appear under `src/`.
It is modelled here from the words of the specification. -/

/-- Modelled from the spec: the `ConfigError` taxonomy of scheme
construction (duplicate code, code without mapping, class index without
name or palette entry, length mismatch of the parallel sequences), which is
missing from `src/`. -/
inductive ConfigError where
  | lengthMismatch (nCodes nClasses : Nat)
  | duplicateCode (c : Int)
  | missingMapping (c : Int)
  | missingName (i : Int)
  | missingPalette (i : Int)
  deriving DecidableEq, Repr

/-- Modelled from the spec: a constructed `ClassificationScheme` value
(codes, code-to-class mapping, display names, palette), missing from
`src/`.  The name and palette types are parameters since the claims do not
depend on them. -/
structure ClassificationScheme (ν π : Type) where
  codes : List Int
  classOf : List (Int × Int)
  names : List (Int × ν)
  palette : List π

/-- First raw code occurring twice in a code list, `none` when the codes
are all distinct. -/
def firstDup : List Int → Option Int
  | [] => none
  | c :: cs => if c ∈ cs then some c else firstDup cs

/-- Modelled from the spec: `Construct(codes, classOf, names, palette)`
validates, before any computation, that no code is duplicated, that every
code has a mapping, and that every referenced class index has a name and a
palette entry (the palette is an ordered sequence indexed by class index);
it fails with the `ConfigError` naming the first offending code or index.
This constructor is missing from `src/`. -/
def construct {ν π : Type} (codes : List Int) (classOf : List (Int × Int))
    (names : List (Int × ν)) (palette : List π) :
    Except ConfigError (ClassificationScheme ν π) :=
  match firstDup codes with
  | some c => Except.error (ConfigError.duplicateCode c)
  | none =>
    match codes.find? (fun c => (List.lookup c classOf).isNone) with
    | some c => Except.error (ConfigError.missingMapping c)
    | none =>
      let refd := codes.filterMap (fun c => List.lookup c classOf)
      match refd.find? (fun i => (List.lookup i names).isNone) with
      | some i => Except.error (ConfigError.missingName i)
      | none =>
        match refd.find? (fun i => !(decide (0 ≤ i ∧ i.toNat < palette.length))) with
        | some i => Except.error (ConfigError.missingPalette i)
        | none => Except.ok ⟨codes, classOf, names, palette⟩

/-- Modelled from the spec: the external input format of §6 — parallel
`codes` and `newClasses` sequences — fails fast on a shape mismatch, then
zips the two sequences into the code-to-class mapping and validates as
`construct`.  Missing from `src/`. -/
def constructParallel {ν π : Type} (codes newClasses : List Int)
    (names : List (Int × ν)) (palette : List π) :
    Except ConfigError (ClassificationScheme ν π) :=
  if codes.length = newClasses.length then
    construct codes (codes.zip newClasses) names palette
  else Except.error (ConfigError.lengthMismatch codes.length newClasses.length)

/-- Decides whether an `Except` is in its failure case. -/
def exceptErr {ε α : Type} : Except ε α → Bool
  | Except.ok _ => false
  | Except.error _ => true

/-! ## Helper lemmas about `remapLookup` -/

/-- A value occurring in neither list is masked out by `remap`. -/
theorem remapLookup_not_mem (cs ns : List Int) (v : Int) (hv : v ∉ cs) :
    remapLookup cs ns v = none := by
  induction cs generalizing ns with
  | nil => cases ns <;> rfl
  | cons c cs1 ih =>
    cases ns with
    | nil => rfl
    | cons n ns1 =>
      have h1 : v ≠ c := fun h => hv (h ▸ List.mem_cons_self c cs1)
      simpa [remapLookup, h1] using ih ns1 (fun h => hv (List.mem_cons_of_mem c h))

/-- A remapped value comes from the target list. -/
theorem remapLookup_mem (cs ns : List Int) (v w : Int)
    (h : remapLookup cs ns v = some w) : w ∈ ns := by
  induction cs generalizing ns with
  | nil => simp [remapLookup] at h
  | cons c cs1 ih =>
    cases ns with
    | nil => simp [remapLookup] at h
    | cons n ns1 =>
      by_cases hv : v = c
      · simp only [remapLookup, if_pos hv, Option.some.injEq] at h
        exact h ▸ List.mem_cons_self n ns1
      · simp only [remapLookup, if_neg hv] at h
        exact List.mem_cons_of_mem n (ih ns1 h)

/-- Under an identity scheme (target list equal to the code list) a listed
value is remapped to itself. -/
theorem remapLookup_id (cs : List Int) (v : Int) (hv : v ∈ cs) :
    remapLookup cs cs v = some v := by
  induction cs with
  | nil => cases hv
  | cons c cs1 ih =>
    by_cases h : v = c
    · simp [remapLookup, h]
    · have : v ∈ cs1 := by
        cases hv with
        | head => exact absurd rfl h
        | tail _ hm => exact hm
      simp [remapLookup, h, ih this]

/-- A value listed among the codes is remapped to something whenever the
target list is at least as long as the code list. -/
theorem remapLookup_total (cs ns : List Int) (v : Int) (hv : v ∈ cs)
    (hlen : cs.length ≤ ns.length) :
    ∃ w, remapLookup cs ns v = some w ∧ w ∈ ns := by
  induction cs generalizing ns with
  | nil => cases hv
  | cons c cs1 ih =>
    cases ns with
    | nil => simp at hlen
    | cons n ns1 =>
      by_cases h : v = c
      · exact ⟨n, by simp [remapLookup, h], List.mem_cons_self n ns1⟩
      · have hv1 : v ∈ cs1 := by
          cases hv with
          | head => exact absurd rfl h
          | tail _ hm => exact hm
        have hlen1 : cs1.length ≤ ns1.length := by
          simpa using Nat.le_of_succ_le_succ hlen
        obtain ⟨w, hw, hmem⟩ := ih ns1 hv1 hlen1
        exact ⟨w, by simp [remapLookup, h, hw], List.mem_cons_of_mem n hmem⟩

/-- Idempotence of the identity remap on one pixel. -/
theorem remapLookup_id_idem (cs : List Int) (p : Option Int) :
    (p.bind (remapLookup cs cs)).bind (remapLookup cs cs) =
      p.bind (remapLookup cs cs) := by
  cases p with
  | none => rfl
  | some v =>
    cases h : remapLookup cs cs v with
    | none => simp [h]
    | some w =>
      simp [h, remapLookup_id cs w (remapLookup_mem cs cs v w h)]

/-- Rows of an identity remap of a row whose unmasked values are all listed
are returned unchanged. -/
theorem remapRow_id (cs : List Int) (row : List (Option Int))
    (h : ∀ p ∈ row, ∀ v ∈ p.toList, v ∈ cs) :
    row.map (fun p => p.bind (remapLookup cs cs)) = row := by
  induction row with
  | nil => rfl
  | cons p t ih =>
    have hp : ∀ v ∈ p.toList, v ∈ cs := h p (List.mem_cons_self p t)
    have ht : ∀ q ∈ t, ∀ v ∈ q.toList, v ∈ cs :=
      fun q hq => h q (List.mem_cons_of_mem p hq)
    have hhead : p.bind (remapLookup cs cs) = p := by
      cases p with
      | none => rfl
      | some v =>
        have : v ∈ cs := hp v (by simp [Option.toList])
        simp [remapLookup_id cs v this]
    simp [hhead, ih ht]

/-- C8: `reclassify` is idempotent under an identity scheme: remapping a
band twice with `codes == classes` equals remapping it once, and remapping
an already-remapped grid (one whose unmasked values all lie in the identity
scheme) returns a grid identical to its input. -/
theorem reclassify_idempotent_identity (g : List (List (Option Int)))
    (cs : List Int) :
    remapBand (remapBand g cs cs) cs cs = remapBand g cs cs ∧
    ((∀ row ∈ g, ∀ p ∈ row, ∀ v ∈ p.toList, v ∈ cs) →
      remapBand g cs cs = g) := by
  constructor
  · have hfun : (fun p : Option Int =>
        (p.bind (remapLookup cs cs)).bind (remapLookup cs cs)) =
        (fun p => p.bind (remapLookup cs cs)) :=
      funext (remapLookup_id_idem cs)
    simp [remapBand, List.map_map, Function.comp_def, hfun]
  · intro h
    unfold remapBand
    induction g with
    | nil => rfl
    | cons row rows ih =>
      have hrow := remapRow_id cs row (h row (List.mem_cons_self row rows))
      have hrest := ih (fun r hr => h r (List.mem_cons_of_mem row hr))
      simp only [List.map_cons, hrow, hrest]

/-- Witness for C8: at the concrete grid `[[some 1, none]]` and identity
scheme `[1, 2]`, the already-remapped grid comes back unchanged and the
double remap equals the single remap. -/
theorem reclassify_idempotent_identity_witness :
    remapBand (remapBand [[some 1, none]] [1, 2] [1, 2]) [1, 2] [1, 2] =
      remapBand [[some 1, none]] [1, 2] [1, 2] ∧
    remapBand [[some 1, none]] [1, 2] [1, 2] = [[some 1, none]] := by
  refine ⟨(reclassify_idempotent_identity [[some 1, none]] [1, 2]).1, ?_⟩
  exact (reclassify_idempotent_identity [[some 1, none]] [1, 2]).2 (by decide)

/-- Unfolding step: the area contribution of the head pixel of a remapped
band. -/
theorem areaOfClass_remap_cons (p : Int × Bool × ℚ) (t : List (Int × Bool × ℚ))
    (cs ns : List Int) (i : Int) :
    areaOfClass (remapPixels (p :: t) cs ns) i =
      (if p.2.1 = true ∧ remapLookup cs ns p.1 = some i then p.2.2 else 0) +
      areaOfClass (remapPixels t cs ns) i := rfl

/-- C9: a pixel whose raw code is not listed in the scheme codes sequence is
masked out by `remap` (sent to `none`) and therefore contributes zero to the
area sum of every class: the per-class areas are unchanged when all such
pixels are removed from the band.  The effective unmapped-code policy is
exclusion. -/
theorem unmapped_codes_excluded :
    (∀ (cs ns : List Int) (v : Int), v ∉ cs → remapLookup cs ns v = none) ∧
    (∀ (px : List (Int × Bool × ℚ)) (cs ns : List Int) (i : Int),
      areaOfClass (remapPixels px cs ns) i =
        areaOfClass
          (remapPixels (px.filter (fun p => decide (p.1 ∈ cs))) cs ns) i) := by
  refine ⟨remapLookup_not_mem, ?_⟩
  intro px cs ns i
  induction px with
  | nil => rfl
  | cons p t ih =>
    by_cases hc : p.1 ∈ cs
    · have hfilter : (p :: t).filter (fun q => decide (q.1 ∈ cs)) =
          p :: t.filter (fun q => decide (q.1 ∈ cs)) := by
        simp [List.filter_cons, hc]
      rw [hfilter, areaOfClass_remap_cons, areaOfClass_remap_cons, ih]
    · have hfilter : (p :: t).filter (fun q => decide (q.1 ∈ cs)) =
          t.filter (fun q => decide (q.1 ∈ cs)) := by
        simp [List.filter_cons, hc]
      have h0 : remapLookup cs ns p.1 = none := remapLookup_not_mem cs ns p.1 hc
      rw [hfilter, areaOfClass_remap_cons, h0]
      simp [ih]

/-- Witness for C9: raw code 2 is not listed in the one-code scheme `[1]`,
is masked out, and dropping that pixel leaves the class-1 area unchanged. -/
theorem unmapped_codes_excluded_witness :
    remapLookup [1] [1] 2 = none ∧
    areaOfClass (remapPixels [((2 : Int), (true, (900 : ℚ)))] [1] [1]) 1 =
      areaOfClass
        (remapPixels ([((2 : Int), (true, (900 : ℚ)))].filter
          (fun p => decide (p.1 ∈ [1]))) [1] [1]) 1 :=
  ⟨unmapped_codes_excluded.1 [1] [1] 2 (by decide),
   unmapped_codes_excluded.2 [((2 : Int), (true, (900 : ℚ)))] [1] [1] 1⟩

/-- Area of one class over a constant band of `n` equal pixels. -/
theorem areaOfClass_replicate (n : Nat) (q : Option Int × Bool × ℚ) (i : Int) :
    areaOfClass (List.replicate n q) i =
      (n : ℚ) * (if q.2.1 = true ∧ q.1 = some i then q.2.2 else 0) := by
  induction n with
  | zero => simp [areaOfClass]
  | succ m ih =>
    have hstep : areaOfClass (List.replicate (m + 1) q) i =
        (if q.2.1 = true ∧ q.1 = some i then q.2.2 else 0) +
        areaOfClass (List.replicate m q) i := rfl
    rw [hstep, ih]
    push_cast
    ring

/-- C1: for the scheme `CLASS_MAPPING` (raw codes 1, 3, 4, 5, 6, 49 mapped
to class 1), a 10x10 band of raw code 1 with a per-pixel ground area of
900 m² and a region covering the whole band, `computeAreaByClass` returns
0.09 km² (= 9/100) for class 1 and 0 for every other class index present in
the scheme. -/
theorem end_to_end_area_scenario :
    computeAreaByClass band10 1 = 9 / 100 ∧
    ∀ i ∈ ([2, 3, 4, 5, 6] : List Int), computeAreaByClass band10 i = 0 := by
  have hmap : remapPixels band10 CLASS_MAPPING_codes CLASS_MAPPING_values =
      List.replicate 100 ((some 1 : Option Int), (true, (900 : ℚ))) := by
    simp only [band10, remapPixels, List.map_replicate]
    rfl
  constructor
  · rw [computeAreaByClass, hmap, areaOfClass_replicate]
    norm_num
  · intro i hi
    rw [computeAreaByClass, hmap, areaOfClass_replicate]
    have hne : ((some 1 : Option Int) = some i) = False := by
      fin_cases hi <;> simp
    simp [hne]

/-- C2: the closed-form ordinary least squares fit of `rio.py` (slope and
intercept over `x = year - 1985`, which for this series starting in 1985 is
the number of years since the first year) recovers the exact parameters of
the synthetic linear series `value = 2 * (year - 1985) + 1` over the years
1985..1990: slope exactly 2, intercept exactly 1, and the squared
correlation reported by the statistics section exactly 1. -/
theorem trend_exact_on_linear_series :
    fitTrendSlope linearSeries = 2 ∧ fitTrendIntercept linearSeries = 1 ∧
    linregressR2 linearSeries = 1 := by
  refine ⟨?_, ?_, ?_⟩ <;>
    norm_num [fitTrendSlope, fitTrendIntercept, fitTrendNum, fitTrendDen,
      sumXY, sumX, sumX2, sumSnd, sumFst, sumFstSnd, sumFstSq, sumSndSq,
      linregressR2, linearSeries]

/-- Sum of a mapped list all of whose mapped values are equal. -/
theorem sum_map_const_of_all {α : Type} (l : List α) (f : α → ℚ) (d : ℚ)
    (h : ∀ x ∈ l, f x = d) : (l.map f).sum = (l.length : ℚ) * d := by
  induction l with
  | nil => simp
  | cons a t ih =>
    have ha : f a = d := h a (List.mem_cons_self a t)
    have ht := ih (fun x hx => h x (List.mem_cons_of_mem a hx))
    simp only [List.map_cons, List.sum_cons, ha, ht, List.length_cons]
    push_cast
    ring

/-- Counterexample to C6: on the single-point series `[(1985, 5)]` the
slope denominator `n * sum_x2 - sum_x ** 2` of `rio.py` line 167 is zero
and the unguarded float division produces a non-finite value (modelled
`none`); no `ComputationError` is raised — no such error type exists in the
code. -/
theorem fitTrend_single_point_counterexample :
    fitTrendDen [((1985 : ℚ), 5)] = 0 ∧ fitTrend [((1985 : ℚ), 5)] = none := by
  have h : fitTrendDen [((1985 : ℚ), 5)] = 0 := by
    norm_num [fitTrendDen, sumX2, sumX]
  exact ⟨h, by simp [fitTrend, h]⟩

/-- C6 (amended): whenever the input series has fewer than 2 points or all
of its `x` values are identical, the slope denominator computed by `rio.py`
line 167 is zero and the division is performed unguarded, yielding a
non-finite result (modelled `none`) rather than a typed
`ComputationError`. -/
theorem fitTrend_degenerate (pts : List (ℚ × ℚ))
    (h : pts.length < 2 ∨ ∃ c, ∀ p ∈ pts, p.1 = c) :
    fitTrendDen pts = 0 ∧ fitTrend pts = none := by
  have hden : fitTrendDen pts = 0 := by
    rcases h with hlen | ⟨c, hc⟩
    · match pts, hlen with
      | [], _ => simp [fitTrendDen, sumX2, sumX]
      | [p], _ => simp [fitTrendDen, sumX2, sumX]
      | p :: q :: t, hlen =>
        simp only [List.length_cons] at hlen
        omega
    · have h1 : sumX pts = (pts.length : ℚ) * (c - 1985) :=
        sum_map_const_of_all pts _ _ (fun p hp => by rw [hc p hp])
      have h2 : sumX2 pts = (pts.length : ℚ) * (c - 1985) ^ 2 :=
        sum_map_const_of_all pts _ _ (fun p hp => by rw [hc p hp])
      rw [fitTrendDen, h1, h2]
      ring
  exact ⟨hden, by simp [fitTrend, hden]⟩

/-- Witness for C6 (amended) at the single-point series. -/
theorem fitTrend_degenerate_witness :
    fitTrendDen [((1985 : ℚ), 5)] = 0 ∧ fitTrend [((1985 : ℚ), 5)] = none :=
  fitTrend_degenerate [((1985 : ℚ), 5)] (Or.inl (by simp))

/-- Counterexample to C7: the value series `[0, 50]` has minimum zero, yet
`rio.py` line 266 divides by that minimum with no guard: the division by
zero occurs and produces a non-finite value (modelled `none`). -/
theorem percent_change_min_zero_counterexample :
    listMin [(0 : ℚ), 50] = some 0 ∧ variacaoTotal [(0 : ℚ), 50] = none := by
  constructor
  · norm_num [listMin]
  · norm_num [variacaoTotal, listMin, listMax]

/-- C7 (amended): `percentChange` is computed as
`(max - min) / min * 100` over the value series, with no guard: when the
minimum is nonzero that quotient is returned, and when the minimum is zero
the division by zero occurs and the result is non-finite (modelled
`none`). -/
theorem percent_change_unguarded (l : List ℚ) (mn mx : ℚ)
    (hmin : listMin l = some mn) (hmax : listMax l = some mx) :
    (mn ≠ 0 → variacaoTotal l = some ((mx - mn) / mn * 100)) ∧
    (mn = 0 → variacaoTotal l = none) := by
  constructor <;> intro h <;> simp [variacaoTotal, hmin, hmax, h]

/-- Witness for C7 (amended): the series `[10, 20]` yields
`percentChange = 100`; the series `[0, 20]` hits the unguarded division by
zero. -/
theorem percent_change_unguarded_witness :
    variacaoTotal [(10 : ℚ), 20] = some 100 ∧
    variacaoTotal [(0 : ℚ), 20] = none := by
  constructor
  · have h := (percent_change_unguarded [(10 : ℚ), 20] 10 20
      (by norm_num [listMin]) (by norm_num [listMax])).1 (by norm_num)
    rw [h]
    norm_num
  · exact (percent_change_unguarded [(0 : ℚ), 20] 0 20
      (by norm_num [listMin]) (by norm_num [listMax])).2 rfl

/-- The seven rows of a successful year all carry that year. -/
theorem rowsFor_map_ano (y : Int) (areas : List ℚ) :
    (rowsFor y areas).map (fun r => r.ano) = List.replicate 7 y := rfl

/-- C4: in the batch computation a failing year is isolated: the failed
years (with their reasons) are exactly the requested years whose fetch
fails, in order; the collected rows carry exactly the years whose fetch
succeeds (seven rows each), so every other requested year is still
processed; and in the concrete scenario requesting 2020, 2021, 2022 with
the 2021 band unavailable, the rows cover exactly 2020 and 2022 and the
failure report names 2021 with the unavailable-data reason. -/
theorem batch_isolation :
    (∀ (fetch : Int → Except DataErr (List ℚ)) (ys : List Int),
      (statsLoop fetch ys).2.map Prod.fst =
        ys.filter (fun y => !(exceptOk (fetch y)))) ∧
    (∀ (fetch : Int → Except DataErr (List ℚ)) (ys : List Int),
      (statsLoop fetch ys).1.map (fun r => r.ano) =
        (ys.filter (fun y => exceptOk (fetch y))).flatMap
          (fun y => List.replicate 7 y)) ∧
    (statsLoop fetch2021Missing [2020, 2021, 2022]).1.map (fun r => r.ano) =
      List.replicate 7 2020 ++ List.replicate 7 2022 ∧
    (statsLoop fetch2021Missing [2020, 2021, 2022]).2 =
      [(2021, DataErr.dataUnavailable)] := by
  have hfail : ∀ (fetch : Int → Except DataErr (List ℚ)) (ys : List Int),
      (statsLoop fetch ys).2.map Prod.fst =
        ys.filter (fun y => !(exceptOk (fetch y))) := by
    intro fetch ys
    induction ys with
    | nil => rfl
    | cons y t ih =>
      cases hf : fetch y with
      | ok areas => simp [statsLoop, hf, exceptOk, List.filter_cons, ih]
      | error e => simp [statsLoop, hf, exceptOk, List.filter_cons, ih]
  have hrows : ∀ (fetch : Int → Except DataErr (List ℚ)) (ys : List Int),
      (statsLoop fetch ys).1.map (fun r => r.ano) =
        (ys.filter (fun y => exceptOk (fetch y))).flatMap
          (fun y => List.replicate 7 y) := by
    intro fetch ys
    induction ys with
    | nil => rfl
    | cons y t ih =>
      cases hf : fetch y with
      | ok areas =>
        simp [statsLoop, hf, exceptOk, List.filter_cons, ih, rowsFor_map_ano]
      | error e => simp [statsLoop, hf, exceptOk, List.filter_cons, ih]
  refine ⟨hfail, hrows, ?_, ?_⟩
  · rw [hrows]
    norm_num [fetch2021Missing, exceptOk, List.filter_cons]
  · norm_num [statsLoop, fetch2021Missing]

/-- A code list has no first duplicate exactly when it has no duplicate at
all. -/
theorem firstDup_eq_none_iff (l : List Int) : firstDup l = none ↔ l.Nodup := by
  induction l with
  | nil => simp [firstDup]
  | cons c cs ih =>
    by_cases h : c ∈ cs
    · simp [firstDup, h]
    · simp [firstDup, h, ih]

/-- C5: scheme construction (modelled from the spec, since no validating
constructor exists under `src/`) validates its input and fails with a
`ConfigError` before any computation whenever (1) the parallel `codes` and
`newClasses` sequences have different lengths, (2) a raw code is
duplicated, (3) a code has no mapping — in particular `codes = [1, 2]`
with `classOf = {1 ↦ 1}` fails naming code 2 — or (4) a referenced class
index has no name or no palette entry. -/
theorem scheme_construct_validates :
    (∀ {ν π : Type} (codes newClasses : List Int) (names : List (Int × ν))
        (palette : List π),
      codes.length ≠ newClasses.length →
      constructParallel codes newClasses names palette =
        Except.error (ConfigError.lengthMismatch codes.length newClasses.length)) ∧
    (∀ {ν π : Type} (codes : List Int) (classOf : List (Int × Int))
        (names : List (Int × ν)) (palette : List π),
      ¬ codes.Nodup → exceptErr (construct codes classOf names palette) = true) ∧
    (∀ {ν π : Type} (codes : List Int) (classOf : List (Int × Int))
        (names : List (Int × ν)) (palette : List π) (c : Int),
      c ∈ codes → List.lookup c classOf = none →
      exceptErr (construct codes classOf names palette) = true) ∧
    (∀ {ν π : Type} (codes : List Int) (classOf : List (Int × Int))
        (names : List (Int × ν)) (palette : List π) (c i : Int),
      c ∈ codes → List.lookup c classOf = some i →
      (List.lookup i names = none ∨ ¬ (0 ≤ i ∧ i.toNat < palette.length)) →
      exceptErr (construct codes classOf names palette) = true) ∧
    (∀ {ν π : Type} (names : List (Int × ν)) (palette : List π),
      construct [1, 2] [(1, 1)] names palette =
        Except.error (ConfigError.missingMapping 2)) := by
  refine ⟨?_, ?_, ?_, ?_, ?_⟩
  · intro ν π codes newClasses names palette h
    simp [constructParallel, h]
  · intro ν π codes classOf names palette h
    cases h1 : firstDup codes with
    | some c => simp [construct, h1, exceptErr]
    | none => exact absurd ((firstDup_eq_none_iff codes).mp h1) h
  · intro ν π codes classOf names palette c hc hlook
    cases h1 : firstDup codes with
    | some c0 => simp [construct, h1, exceptErr]
    | none =>
      cases h2 : codes.find? (fun c => (List.lookup c classOf).isNone) with
      | some c0 => simp [construct, h1, h2, exceptErr]
      | none =>
        exfalso
        have hall := List.find?_eq_none.mp h2 c hc
        rw [hlook] at hall
        exact hall rfl
  · intro ν π codes classOf names palette c i hc hlook hbad
    cases h1 : firstDup codes with
    | some c0 => simp [construct, h1, exceptErr]
    | none =>
      cases h2 : codes.find? (fun c => (List.lookup c classOf).isNone) with
      | some c0 => simp [construct, h1, h2, exceptErr]
      | none =>
        have hi : i ∈ codes.filterMap (fun c => List.lookup c classOf) :=
          List.mem_filterMap.mpr ⟨c, hc, hlook⟩
        cases h3 : (codes.filterMap (fun c => List.lookup c classOf)).find?
            (fun j => (List.lookup j names).isNone) with
        | some j => simp only [construct, h1, h2, h3, exceptErr]
        | none =>
          have hname : ¬ List.lookup i names = none := by
            intro hn
            have hall := List.find?_eq_none.mp h3 i hi
            rw [hn] at hall
            exact hall rfl
          cases h4 : (codes.filterMap (fun c => List.lookup c classOf)).find?
              (fun j => !(decide (0 ≤ j ∧ j.toNat < palette.length))) with
          | some j => simp only [construct, h1, h2, h3, h4, exceptErr]
          | none =>
            exfalso
            have hall := List.find?_eq_none.mp h4 i hi
            rcases hbad with hn | hp
            · exact hname hn
            · simp only [Bool.not_eq_true', decide_eq_false_iff_not] at hall
              exact hall hp
  · intro ν π names palette
    rfl

/-- Witness for C5: each validation failure at a concrete input — length
mismatch, duplicate code 1, unmapped code 1, class index 5 without a name,
and the spec scenario `codes = [1, 2]`, `classOf = {1 ↦ 1}` failing on
code 2. -/
theorem scheme_construct_validates_witness :
    constructParallel [1] ([] : List Int) ([] : List (Int × Unit))
        ([] : List Unit) = Except.error (ConfigError.lengthMismatch 1 0) ∧
    exceptErr (construct [1, 1] [((1 : Int), (1 : Int))]
        ([] : List (Int × Unit)) ([] : List Unit)) = true ∧
    exceptErr (construct [1] ([] : List (Int × Int))
        ([] : List (Int × Unit)) ([] : List Unit)) = true ∧
    exceptErr (construct [1] [((1 : Int), (5 : Int))]
        ([] : List (Int × Unit)) ([] : List Unit)) = true ∧
    construct [1, 2] [(1, 1)] ([] : List (Int × Unit)) ([] : List Unit) =
      Except.error (ConfigError.missingMapping 2) :=
  ⟨scheme_construct_validates.1 [1] [] [] [] (by decide),
   scheme_construct_validates.2.1 [1, 1] [((1 : Int), (1 : Int))] [] []
     (by decide),
   scheme_construct_validates.2.2.1 [1] [] [] [] 1 (by decide) rfl,
   scheme_construct_validates.2.2.2.1 [1] [((1 : Int), (5 : Int))] [] [] 1 5
     (by decide) rfl (Or.inl rfl),
   scheme_construct_validates.2.2.2.2 [] []⟩

/-- Splitting a mapped sum of pointwise additions. -/
theorem sum_map_add_rat {α : Type} (l : List α) (f g : α → ℚ) :
    (l.map (fun x => f x + g x)).sum = (l.map f).sum + (l.map g).sum := by
  induction l with
  | nil => simp
  | cons a t ih =>
    simp only [List.map_cons, List.sum_cons, ih]
    ring

/-- The seven-class sum of the head contributions of one pixel whose value
lies in 0..6 is exactly its in-region ground area. -/
theorem classSum_pixel (b : Bool) (a : ℚ) (v : Int) (h0 : 0 ≤ v) (h7 : v < 7) :
    ((List.range 7).map (fun i =>
      (if b = true ∧ (some v : Option Int) = some (Int.ofNat i) then a else 0) /
        1000000)).sum =
    (if b = true then a else 0) / 1000000 := by
  have hv : v = 0 ∨ v = 1 ∨ v = 2 ∨ v = 3 ∨ v = 4 ∨ v = 5 ∨ v = 6 := by omega
  rcases hv with rfl | rfl | rfl | rfl | rfl | rfl | rfl <;> cases b <;>
    norm_num [List.range_succ]

/-- Head decomposition of the seven-class km² sum. -/
theorem sumAreaKm2_cons (q : Option Int × Bool × ℚ)
    (px : List (Option Int × Bool × ℚ)) :
    sumAreaKm2 (q :: px) =
      ((List.range 7).map (fun i =>
        (if q.2.1 = true ∧ q.1 = some (Int.ofNat i) then q.2.2 else 0) /
          1000000)).sum + sumAreaKm2 px := by
  unfold sumAreaKm2
  have hstep : ∀ i : Nat, areaOfClass (q :: px) (Int.ofNat i) / 1000000 =
      (if q.2.1 = true ∧ q.1 = some (Int.ofNat i) then q.2.2 else 0) / 1000000 +
      areaOfClass px (Int.ofNat i) / 1000000 := by
    intro i
    rw [show areaOfClass (q :: px) (Int.ofNat i) =
      (if q.2.1 = true ∧ q.1 = some (Int.ofNat i) then q.2.2 else 0) +
      areaOfClass px (Int.ofNat i) from rfl, add_div]
  simp only [hstep]
  exact sum_map_add_rat (List.range 7) _ _

/-- On a band whose pixels are all unmasked with class values in 0..6, the
sum of the seven per-class km² areas is exactly the in-region ground area
divided by 1e6: no pixel is lost and none is counted twice. -/
theorem sumAreaKm2_eq_maskedArea (px : List (Option Int × Bool × ℚ))
    (h : ∀ p ∈ px, ∃ v, p.1 = some v ∧ 0 ≤ v ∧ v < 7) :
    sumAreaKm2 px = maskedArea px / 1000000 := by
  induction px with
  | nil => simp [sumAreaKm2, maskedArea, areaOfClass]
  | cons q t ih =>
    obtain ⟨v, hv, hv0, hv7⟩ := h q (List.mem_cons_self q t)
    have ht := ih (fun p hp => h p (List.mem_cons_of_mem q hp))
    rw [sumAreaKm2_cons, ht]
    rw [show maskedArea (q :: t) =
      (if q.2.1 = true then q.2.2 else 0) + maskedArea t from rfl, add_div]
    rw [hv, classSum_pixel q.2.1 q.2.2 v hv0 hv7]

/-- Remapping does not move pixels in or out of the region and keeps their
ground area. -/
theorem maskedArea_remapPixels (px : List (Int × Bool × ℚ)) (cs ns : List Int) :
    maskedArea (remapPixels px cs ns) = maskedArea px := by
  simp [maskedArea, remapPixels, List.map_map, Function.comp_def]

/-- C3: for one year of the `novo.py` pipeline (band remapped with
`CLASS_CONFIG`, whose class values lie in 0..6): on a band whose raw codes
are all listed in the scheme, if the in-region rasterized ground area
approximates the true clipped region area within a tolerance (the boundary
tolerance supplied by the rasterizer, e.g. one pixel area times the number
of boundary pixels), then the sum of `areaKm2` over all class indices
present in the scheme approximates the true region area (in km²) within
that same tolerance — approximation, not exact equality. -/
theorem class_area_sum_invariant (px : List (Int × Bool × ℚ))
    (trueArea tol : ℚ)
    (hmapped : ∀ p ∈ px, p.1 ∈ CLASS_CONFIG_codes)
    (htol : |maskedArea px - trueArea| ≤ tol) :
    |sumAreaKm2 (remapPixels px CLASS_CONFIG_codes CLASS_CONFIG_new_classes) -
      trueArea / 1000000| ≤ tol / 1000000 := by
  have hbound : ∀ p ∈ remapPixels px CLASS_CONFIG_codes CLASS_CONFIG_new_classes,
      ∃ v, p.1 = some v ∧ 0 ≤ v ∧ v < 7 := by
    intro p hp
    obtain ⟨q, hq, rfl⟩ := List.mem_map.mp hp
    obtain ⟨w, hw, hmem⟩ := remapLookup_total CLASS_CONFIG_codes
      CLASS_CONFIG_new_classes q.1 (hmapped q hq) (by decide)
    have hrange : ∀ u ∈ CLASS_CONFIG_new_classes, 0 ≤ u ∧ u < 7 := by decide
    exact ⟨w, hw, (hrange w hmem).1, (hrange w hmem).2⟩
  rw [sumAreaKm2_eq_maskedArea _ hbound, maskedArea_remapPixels,
    div_sub_div_same, abs_div, show |(1000000 : ℚ)| = 1000000 by norm_num]
  exact (div_le_div_iff_of_pos_right (by norm_num)).mpr htol

/-- Witness for C3: the 10x10 all-forest band of 900 m² pixels, whose
rasterized region area 90000 m² equals the true area exactly (tolerance
0). -/
theorem class_area_sum_invariant_witness :
    |sumAreaKm2 (remapPixels band10 CLASS_CONFIG_codes CLASS_CONFIG_new_classes) -
      90000 / 1000000| ≤ 0 / 1000000 := by
  have hm : maskedArea band10 = 90000 := by
    simp [maskedArea, band10, List.map_replicate, List.sum_replicate]
    norm_num
  exact class_area_sum_invariant band10 90000 0
    (by intro p hp; rw [List.eq_of_mem_replicate hp]; decide)
    (by rw [hm]; norm_num)

/-! ## Helper lemmas for the translation invariance of the slope -/

/-- Expansion of the sum of translated years. -/
theorem sum_sub_fst (pts : List (ℚ × ℚ)) (c : ℚ) :
    (pts.map (fun p => p.1 - c)).sum = sumFst pts - (pts.length : ℚ) * c := by
  induction pts with
  | nil => simp [sumFst]
  | cons a t ih =>
    simp only [List.map_cons, List.sum_cons, ih,
      show sumFst (a :: t) = a.1 + sumFst t from rfl, List.length_cons]
    push_cast
    ring

/-- Expansion of the sum of translated-year times value products. -/
theorem sum_sub_fst_mul_snd (pts : List (ℚ × ℚ)) (c : ℚ) :
    (pts.map (fun p => (p.1 - c) * p.2)).sum =
      sumFstSnd pts - c * sumSnd pts := by
  induction pts with
  | nil => simp [sumFstSnd, sumSnd]
  | cons a t ih =>
    simp only [List.map_cons, List.sum_cons, ih,
      show sumFstSnd (a :: t) = a.1 * a.2 + sumFstSnd t from rfl,
      show sumSnd (a :: t) = a.2 + sumSnd t from rfl]
    ring

/-- Expansion of the doubly centered product sum. -/
theorem sum_sub_mul_both (pts : List (ℚ × ℚ)) (c d : ℚ) :
    (pts.map (fun p => (p.1 - c) * (p.2 - d))).sum =
      sumFstSnd pts - c * sumSnd pts - d * sumFst pts +
      (pts.length : ℚ) * (c * d) := by
  induction pts with
  | nil => simp [sumFstSnd, sumSnd, sumFst]
  | cons a t ih =>
    simp only [List.map_cons, List.sum_cons, ih,
      show sumFstSnd (a :: t) = a.1 * a.2 + sumFstSnd t from rfl,
      show sumSnd (a :: t) = a.2 + sumSnd t from rfl,
      show sumFst (a :: t) = a.1 + sumFst t from rfl, List.length_cons]
    push_cast
    ring

/-- Expansion of the sum of squared translated years. -/
theorem sum_sub_sq_fst (pts : List (ℚ × ℚ)) (c : ℚ) :
    (pts.map (fun p => (p.1 - c) ^ 2)).sum =
      sumFstSq pts - 2 * c * sumFst pts + (pts.length : ℚ) * c ^ 2 := by
  induction pts with
  | nil => simp [sumFstSq, sumFst]
  | cons a t ih =>
    simp only [List.map_cons, List.sum_cons, ih,
      show sumFstSq (a :: t) = a.1 ^ 2 + sumFstSq t from rfl,
      show sumFst (a :: t) = a.1 + sumFst t from rfl, List.length_cons]
    push_cast
    ring

/-- Expansion of the sum of squared differences from a constant year. -/
theorem sum_const_sub_fst_sq (pts : List (ℚ × ℚ)) (c : ℚ) :
    (pts.map (fun q => (c - q.1) ^ 2)).sum =
      sumFstSq pts - 2 * c * sumFst pts + (pts.length : ℚ) * c ^ 2 := by
  induction pts with
  | nil => simp [sumFstSq, sumFst]
  | cons a t ih =>
    simp only [List.map_cons, List.sum_cons, ih,
      show sumFstSq (a :: t) = a.1 ^ 2 + sumFstSq t from rfl,
      show sumFst (a :: t) = a.1 + sumFst t from rfl, List.length_cons]
    push_cast
    ring

/-- The slope denominator doubled equals the sum over all ordered pairs of
points of the squared difference of their years. -/
theorem double_sum_identity (pts : List (ℚ × ℚ)) :
    2 * ((pts.length : ℚ) * sumFstSq pts - sumFst pts ^ 2) =
      (pts.map (fun p => (pts.map (fun q => (p.1 - q.1) ^ 2)).sum)).sum := by
  induction pts with
  | nil => simp [sumFstSq, sumFst]
  | cons a t ih =>
    have hinner : ∀ p : ℚ × ℚ,
        ((a :: t).map (fun q => (p.1 - q.1) ^ 2)).sum =
          (p.1 - a.1) ^ 2 + (t.map (fun q => (p.1 - q.1) ^ 2)).sum :=
      fun p => rfl
    simp only [hinner, List.map_cons, List.sum_cons,
      sum_map_add_rat t (fun p => (p.1 - a.1) ^ 2)
        (fun p => (t.map (fun q => (p.1 - q.1) ^ 2)).sum)]
    rw [sum_const_sub_fst_sq t a.1, sum_sub_sq_fst t a.1, ← ih]
    simp only [show sumFstSq (a :: t) = a.1 ^ 2 + sumFstSq t from rfl,
      show sumFst (a :: t) = a.1 + sumFst t from rfl, List.length_cons]
    push_cast
    ring

/-- A mapped sum of nonnegative terms is nonnegative. -/
theorem sum_map_nonneg {α : Type} (l : List α) (f : α → ℚ)
    (h : ∀ x ∈ l, 0 ≤ f x) : 0 ≤ (l.map f).sum := by
  induction l with
  | nil => simp
  | cons a t ih =>
    have hfa : 0 ≤ f a := h a (List.mem_cons_self a t)
    have ht := ih (fun u hu => h u (List.mem_cons_of_mem a hu))
    simp only [List.map_cons, List.sum_cons]
    linarith

/-- A nonnegative mapped sum dominates each of its terms. -/
theorem single_le_sum_map {α : Type} (l : List α) (f : α → ℚ)
    (h : ∀ x ∈ l, 0 ≤ f x) (x : α) (hx : x ∈ l) : f x ≤ (l.map f).sum := by
  induction l with
  | nil => cases hx
  | cons a t ih =>
    have ht : 0 ≤ (t.map f).sum :=
      sum_map_nonneg t f (fun u hu => h u (List.mem_cons_of_mem a hu))
    cases hx with
    | head =>
      have hx0 : f x + 0 ≤ f x + (t.map f).sum := by linarith
      simpa using hx0
    | tail _ hxt =>
      have hfa : 0 ≤ f a := h a (List.mem_cons_self a t)
      have hrec := ih (fun u hu => h u (List.mem_cons_of_mem a hu)) hxt
      simp only [List.map_cons, List.sum_cons]
      linarith

/-- The slope denominator over raw years is positive as soon as two points
have different years. -/
theorem raw_den_pos (pts : List (ℚ × ℚ))
    (h : ∃ p ∈ pts, ∃ q ∈ pts, p.1 ≠ q.1) :
    0 < (pts.length : ℚ) * sumFstSq pts - sumFst pts ^ 2 := by
  obtain ⟨p, hp, q, hq, hne⟩ := h
  have h0 : p.1 - q.1 ≠ 0 := sub_ne_zero_of_ne hne
  have hterm : 0 < (p.1 - q.1) ^ 2 :=
    (sq_nonneg (p.1 - q.1)).lt_of_ne (Ne.symm (pow_ne_zero 2 h0))
  have hinner : (p.1 - q.1) ^ 2 ≤ (pts.map (fun r => (p.1 - r.1) ^ 2)).sum :=
    single_le_sum_map pts (fun r => (p.1 - r.1) ^ 2)
      (fun r _ => sq_nonneg _) q hq
  have houter : (pts.map (fun r => (p.1 - r.1) ^ 2)).sum ≤
      (pts.map (fun r => (pts.map (fun s => (r.1 - s.1) ^ 2)).sum)).sum :=
    single_le_sum_map pts (fun r => (pts.map (fun s => (r.1 - s.1) ^ 2)).sum)
      (fun r _ => sum_map_nonneg pts (fun s => (r.1 - s.1) ^ 2)
        (fun s _ => sq_nonneg _)) p hp
  have hid := double_sum_identity pts
  linarith

/-- C10: the closed-form slope of the trend section (over
`x = year - 1985`) equals the slope of the linear regression over the raw
un-normalized years: for every series of at least two points whose years
are not all identical, the two slope computations of `rio.py` agree — the
ordinary least squares slope is invariant under translation of `x`. -/
theorem slope_translation_invariant (pts : List (ℚ × ℚ))
    (hlen : 2 ≤ pts.length)
    (hne : ∃ p ∈ pts, ∃ q ∈ pts, p.1 ≠ q.1) :
    fitTrendSlope pts = linregressSlope pts := by
  have hn0 : pts.length ≠ 0 := by omega
  have hnq : (pts.length : ℚ) ≠ 0 := Nat.cast_ne_zero.mpr hn0
  have hden : (pts.length : ℚ) * sumFstSq pts - sumFst pts ^ 2 ≠ 0 :=
    ne_of_gt (raw_den_pos pts hne)
  have hXY : sumXY pts = sumFstSnd pts - 1985 * sumSnd pts :=
    sum_sub_fst_mul_snd pts 1985
  have hX : sumX pts = sumFst pts - (pts.length : ℚ) * 1985 :=
    sum_sub_fst pts 1985
  have hX2 : sumX2 pts =
      sumFstSq pts - 2 * 1985 * sumFst pts + (pts.length : ℚ) * 1985 ^ 2 :=
    sum_sub_sq_fst pts 1985
  have hnum_eq : fitTrendNum pts =
      (pts.length : ℚ) * sumFstSnd pts - sumFst pts * sumSnd pts := by
    rw [fitTrendNum, hXY, hX]
    ring
  have hden_eq : fitTrendDen pts =
      (pts.length : ℚ) * sumFstSq pts - sumFst pts ^ 2 := by
    rw [fitTrendDen, hX2, hX]
    ring
  have hA : (pts.map (fun p =>
      (p.1 - sumFst pts / (pts.length : ℚ)) *
      (p.2 - sumSnd pts / (pts.length : ℚ)))).sum =
      ((pts.length : ℚ) * sumFstSnd pts - sumFst pts * sumSnd pts) /
        (pts.length : ℚ) := by
    rw [sum_sub_mul_both pts (sumFst pts / (pts.length : ℚ))
      (sumSnd pts / (pts.length : ℚ))]
    field_simp
    ring
  have hB : (pts.map (fun p =>
      (p.1 - sumFst pts / (pts.length : ℚ)) ^ 2)).sum =
      ((pts.length : ℚ) * sumFstSq pts - sumFst pts ^ 2) /
        (pts.length : ℚ) := by
    rw [sum_sub_sq_fst pts (sumFst pts / (pts.length : ℚ))]
    field_simp
    ring
  unfold fitTrendSlope linregressSlope
  rw [hnum_eq, hden_eq, hA, hB]
  field_simp

/-- Witness for C10: on the synthetic linear series the two slope
computations agree. -/
theorem slope_translation_invariant_witness :
    fitTrendSlope linearSeries = linregressSlope linearSeries :=
  slope_translation_invariant linearSeries (by norm_num [linearSeries])
    ⟨(1985, 1), by norm_num [linearSeries], (1986, 3),
      by norm_num [linearSeries], by norm_num⟩

end DashMap
